import Mathlib

/-!
Verification of the OMR exam-processing pipeline (`omr/exam.py`).

The pipeline operates on 2-D grayscale pixel arrays.  We embed images as a
structure carrying explicit dimensions and a total pixel function; pixel
values and all derived statistics are exact rationals (the Python code works
with float64, which we model as exact rational arithmetic).  NumPy NaN values
(means of empty slices) are modelled with `Option ℚ` where the source code
itself handles NaN explicitly (`nanmin` / `nanargmin`), and as an error value
where NaN data would flow into arithmetic that has no rational counterpart.
Python exceptions are modelled with `Except`.
-/

/-- Error outcomes of the pipeline.  The Python code raises `StandardError`
(size tolerance, reference fit), NumPy raises `IndexError` / `ValueError`
(indexing a zero-row array, all-NaN reductions, shape mismatches), and the
image codec can raise I/O errors.  `outOfFuel` is the fuel-exhaustion
artefact of embedding the unbounded trimming loop. -/
inductive OmrError where
  | outOfFuel
  | indexError
  | sizeTolerance
  | referenceFit
  | allNaN
  | nanMean
  | shapeMismatch
  | ioError
  deriving DecidableEq, Repr

instance {ε α : Type} [DecidableEq ε] [DecidableEq α] : DecidableEq (Except ε α) :=
  fun a b =>
    match a, b with
    | Except.ok x, Except.ok y =>
      if h : x = y then isTrue (by rw [h]) else isFalse (by intro hc; cases hc; exact h rfl)
    | Except.error x, Except.error y =>
      if h : x = y then isTrue (by rw [h]) else isFalse (by intro hc; cases hc; exact h rfl)
    | Except.ok _, Except.error _ => isFalse (by intro hc; cases hc)
    | Except.error _, Except.ok _ => isFalse (by intro hc; cases hc)

/-- A 2-D pixel array of shape `(h, w)`.  `pix i j` is the intensity at row
`i`, column `j`; values outside the shape are irrelevant junk (never read). -/
structure Img where
  h : ℕ
  w : ℕ
  pix : ℕ → ℕ → ℚ

def Img.shape (img : Img) : ℕ × ℕ := (img.h, img.w)

/-- `num.rot90`: rotate counterclockwise, `rot90(A)[i, j] = A[j, w - 1 - i]`. -/
def rot90 (img : Img) : Img :=
  ⟨img.w, img.h, fun i j => img.pix j (img.w - 1 - i)⟩

/-- Python slice-index normalization for an axis of length `n`: a negative
index is taken from the end, then the result is clamped into `[0, n]`. -/
def sliceNorm (n : ℕ) (a : ℤ) : ℕ :=
  (min (max (if a < 0 then a + n else a) 0) n).toNat

/-- The list of indices selected by the Python slice `a : b` on an axis of
length `n`. -/
def sliceIdx (n : ℕ) (a b : ℤ) : List ℕ :=
  List.range' (sliceNorm n a) (sliceNorm n b - sliceNorm n a)

/-- `num.mean(img[x0:x1, y0:y1])`: the mean intensity over a rectangular
slice.  NumPy yields NaN on an empty slice, modelled as `none`. -/
def boxMean (img : Img) (x0 x1 y0 y1 : ℤ) : Option ℚ :=
  let rs := sliceIdx img.h x0 x1
  let cs := sliceIdx img.w y0 y1
  if rs.isEmpty || cs.isEmpty then none
  else some ((rs.map (fun i => (cs.map (img.pix i)).sum)).sum / (rs.length * cs.length))

/-- `255 * (img >= contrast)`: two-level binarization. -/
def binarize (contrast : ℚ) (img : Img) : Img :=
  ⟨img.h, img.w, fun i j => if contrast ≤ img.pix i j then 255 else 0⟩

/-- `astype('i')` on a float: truncation toward zero. -/
def truncInt (q : ℚ) : ℤ :=
  if 0 ≤ q then ⌊q⌋ else -⌊-q⌋

/-! ## MarginTrimmer (`Form.trim_margins`) -/

/-- Population variance of a list (NumPy `std` squared). -/
def rowVar (xs : List ℚ) : ℚ :=
  let μ := xs.sum / xs.length
  (xs.map (fun x => (x - μ) ^ 2)).sum / xs.length

/-- `num.std(xs) < t`, over the rationals: `sqrt(var) < t ↔ 0 < t ∧ var < t²`
(a square root is nonnegative).  The std of an empty row is NaN, and a NaN
comparison is false. -/
def stdLt (xs : List ℚ) (t : ℚ) : Bool :=
  if xs.isEmpty then false else decide (0 < t ∧ rowVar xs < t ^ 2)

def row0 (img : Img) : List ℚ := (List.range img.w).map (img.pix 0)

/-- `img[1:, :]`. -/
def trimTop (img : Img) : Img :=
  ⟨img.h - 1, img.w, fun i j => img.pix (i + 1) j⟩

/-- One arm of the four-rotation trimming pass: rotate, then drop the leading
row when its std is below threshold.  Reading `img[0, :]` of a zero-row array
raises `IndexError` in NumPy. -/
def rotStep (t : ℚ) (img : Img) : Except OmrError Img :=
  let img := rot90 img
  if img.h = 0 then Except.error OmrError.indexError
  else if stdLt (row0 img) t then Except.ok (trimTop img) else Except.ok img

def trimPass (t : ℚ) (img : Img) : Except OmrError Img := do
  let img ← rotStep t img
  let img ← rotStep t img
  let img ← rotStep t img
  rotStep t img

/-- The `while oldsize != img.shape` loop of `trim_margins`, with explicit
fuel standing for the unbounded iteration. -/
def trimLoop : ℕ → ℚ → ℕ × ℕ → Img → Except OmrError Img
  | 0, _, _, _ => Except.error OmrError.outOfFuel
  | fuel + 1, t, oldsize, img =>
    if oldsize = img.shape then Except.ok img
    else do
      trimLoop fuel t img.shape (← trimPass t img)

def trim_margins (fuel : ℕ) (t : ℚ) (img : Img) : Except OmrError Img :=
  trimLoop fuel t (0, 0) img

/-! ## Reference-box search (`center_on_box`) -/

/-- `num.arange(-r, r)`: the integers from `-r` up to `r - 1`. -/
def rangeInts (r : ℕ) : List ℤ :=
  List.map (fun k : ℕ => (k : ℤ) - (r : ℤ)) (List.range (2 * r))

/-- The candidate offsets of `center_on_box`: the meshgrid pairs of
`arange(-radius, radius)` with Euclidean distance at most `radius`, in the
order produced by flattening the meshgrid (the first component varies
fastest).  `sqrt(i² + j²) ≤ radius` is equivalent to `i² + j² ≤ radius²`. -/
def candidateOffsets (radius : ℕ) : List (ℤ × ℤ) :=
  (rangeInts radius).flatMap (fun jv =>
    (rangeInts radius).filterMap (fun iv =>
      if iv ^ 2 + jv ^ 2 ≤ (radius : ℤ) ^ 2 then some (iv, jv) else none))

/-- The per-candidate translated-rectangle means (`fit` in `center_on_box`);
`none` is the NaN produced by an empty (out-of-window) slice. -/
def fitListOf (img : Img) (radius : ℕ) (box : ℤ × ℤ × ℤ × ℤ) : List (Option ℚ) :=
  (candidateOffsets radius).map (fun p =>
    boxMean img (box.1 + p.1) (box.2.1 + p.1) (box.2.2.1 + p.2) (box.2.2.2 + p.2))

def nanminAux : List (Option ℚ) → ℚ → ℚ
  | [], bv => bv
  | none :: t, bv => nanminAux t bv
  | some v :: t, bv => nanminAux t (min bv v)

/-- `num.nanmin`: minimum ignoring NaN; `none` when there is no non-NaN entry
(NumPy raises on an all-NaN reduction). -/
def nanminL : List (Option ℚ) → Option ℚ
  | [] => none
  | none :: t => nanminL t
  | some v :: t => some (nanminAux t v)

def nanargminAux : List (Option ℚ) → ℕ → ℕ → ℚ → ℕ
  | [], _, bi, _ => bi
  | none :: t, idx, bi, bv => nanargminAux t (idx + 1) bi bv
  | some v :: t, idx, bi, bv =>
    if v < bv then nanargminAux t (idx + 1) idx v else nanargminAux t (idx + 1) bi bv

/-- `num.nanargmin`: index of the first occurrence of the NaN-ignoring
minimum; `none` when there is no non-NaN entry. -/
def nanargminL : List (Option ℚ) → Option ℕ
  | [] => none
  | none :: t => (nanargminL t).map (· + 1)
  | some v :: t => some (nanargminAux t 1 0 v)

/-- `center_on_box(img, radius, min_ref, *box)`: try every candidate offset,
return the first offset attaining the minimal mean when that minimum is at
most `min_ref`, else the sentinel `(-9999, -9999)`. -/
def center_on_box (img : Img) (radius : ℕ) (min_ref : ℚ) (box : ℤ × ℤ × ℤ × ℤ) :
    Except OmrError (ℤ × ℤ) :=
  let coords := candidateOffsets radius
  let fit := fitListOf img radius box
  match nanminL fit with
  | none => Except.error OmrError.allNaN
  | some m =>
    if m ≤ min_ref then
      match nanargminL fit with
      | some k => Except.ok (coords.getD k (0, 0))
      | none => Except.error OmrError.allNaN
    else Except.ok (-9999, -9999)

/-! ## Form geometry -/

structure Form where
  size : ℕ × ℕ
  offset : ℚ × ℚ
  pos : ℚ × ℚ
  bub : ℚ × ℚ
  space : ℚ × ℚ
  info : Option (ℤ × ℤ × ℤ × ℤ)
  score : Option (ℤ × ℤ × ℤ × ℤ)
  refzone : List (ℤ × ℤ × ℤ × ℤ)
  expected_dpi : ℕ × ℕ
  expected_size : ℕ × ℕ
  size_tolerance : ℚ × ℚ
  ref_rc : ℤ × ℤ
  contrast : ℚ
  trim_std : ℚ
  radius : ℕ
  min_ref : ℚ
  signal : ℚ
  coords : List (List (ℤ × ℤ × ℤ × ℤ))

/-- The `(m, n, 4)` coordinate matrix of `Form.calc_coords`:
`(pos₀ + i·space₀, pos₀ + i·space₀ + bub₀, pos₁ + j·space₁, pos₁ + j·space₁ + bub₁)`
per cell, truncated to integers (`astype('i')`). -/
def calcCoordsOf (size : ℕ × ℕ) (pos space bub : ℚ × ℚ) :
    List (List (ℤ × ℤ × ℤ × ℤ)) :=
  List.map (fun i : ℕ =>
    List.map (fun j : ℕ =>
      (truncInt (pos.1 + (i : ℚ) * space.1),
       truncInt (pos.1 + (i : ℚ) * space.1 + bub.1),
       truncInt (pos.2 + (j : ℚ) * space.2),
       truncInt (pos.2 + (j : ℚ) * space.2 + bub.2))) (List.range size.2)) (List.range size.1)

def Form.calc_coords (f : Form) : Form :=
  { f with coords := calcCoordsOf f.size f.pos f.space f.bub }

/-- `Form.set_offset(r, c)`: accumulate the offset, shift `pos`, translate the
configured `info` and `score` rectangles by `(r, r, c, c)`, and recompute the
coordinate matrix. -/
def Form.set_offset (f : Form) (r c : ℤ) : Form :=
  Form.calc_coords
    { f with
      offset := (f.offset.1 + r, f.offset.2 + c)
      pos := (f.pos.1 + r, f.pos.2 + c)
      info := f.info.map (fun q => (q.1 + r, q.2.1 + r, q.2.2.1 + c, q.2.2.2 + c))
      score := f.score.map (fun q => (q.1 + r, q.2.1 + r, q.2.2.1 + c, q.2.2.2 + c)) }

/-! ## SizeValidator (`Form.check_size`) -/

/-- `d / e ≤ t` with NumPy float division: when `e = 0` the quotient is inf
or NaN (the deviation `d` is nonnegative), and neither is `≤ t`. -/
def pctLeB (d e t : ℚ) : Bool :=
  if e = 0 then false else decide (d / e ≤ t)

def check_size (f : Form) (img : Img) : Except OmrError Unit :=
  if pctLeB |(img.h : ℚ) - f.expected_size.1| f.expected_size.1 f.size_tolerance.1 &&
     pctLeB |(img.w : ℚ) - f.expected_size.2| f.expected_size.2 f.size_tolerance.2
  then Except.ok () else Except.error OmrError.sizeTolerance

/-! ## ReferenceAligner (`Form.fit_reference`) -/

def listMeanQ (l : List ℤ) : ℚ := (l.sum : ℚ) / l.length

/-- A list comprehension over a fallible call: the first raised exception
propagates (Python semantics). -/
def mapExcept {ε α β : Type} (g : α → Except ε β) : List α → Except ε (List β)
  | [] => Except.ok []
  | a :: t => do
    let b ← g a
    let bs ← mapExcept g t
    Except.ok (b :: bs)

/-- `Form.fit_reference`: run `center_on_box` per reference box on the
binarized image, then average the per-box offsets componentwise and truncate
to integers.  In the source, `fit` is a Python list, so `fit == -9999` is a
list-vs-int comparison evaluating to the plain boolean `False`: the
`masked_array` therefore carries no mask at all, the mean runs over every
entry — sentinel `(-9999, -9999)` rows included — and `meanfit[0] is
num.ma.masked` can never be `True`, so the "at least one reference box match
required" `StandardError` is unreachable.  (Guarded by the caller,
`refzone` is nonempty, so the mean is over a nonempty list.) -/
def fit_reference (f : Form) (img : Img) : Except OmrError ((ℤ × ℤ) × List (ℤ × ℤ)) :=
  let bw := binarize f.contrast img
  match mapExcept (fun box => center_on_box bw f.radius f.min_ref box) f.refzone with
  | Except.error e => Except.error e
  | Except.ok fit =>
    Except.ok ((truncInt (listMeanQ (fit.map Prod.fst)),
                truncInt (listMeanQ (fit.map Prod.snd))), fit)

/-! ## BubbleAnalyzer (`Form.get_bubble_means`, `Form.choose_answers`) -/

/-- `Form.get_bubble_means`: mean of the binarized image over every cell
rectangle of the coordinate matrix.  A NaN mean (empty cell rectangle) is
modelled as an error: downstream `argmin` over NaN data has no rational
counterpart, and no claim concerns that degenerate geometry. -/
def get_bubble_means (f : Form) (img : Img) : Except OmrError (List (List ℚ)) :=
  let bw := binarize f.contrast img
  mapExcept (fun row => mapExcept (fun c =>
    match boxMean bw c.1 c.2.1 c.2.2.1 c.2.2.2 with
    | some m => Except.ok m
    | none => Except.error OmrError.nanMean) row) f.coords

/-- The minimum of a row (`sorted_rows[:, 0]` is the minimum of the row). -/
def rowMinQ : List ℚ → ℚ
  | [] => 0
  | a :: t => t.foldl min a

/-- `num.argmin` along a row: index of the first occurrence of the minimum
value (NumPy semantics). -/
def argminRow (r : List ℚ) : ℕ := r.indexOf (rowMinQ r)

/-- The per-row overwrite test of `choose_answers`:
`sorted_rows[:,1] / sorted_rows[:,0] <= signal` with the row sorted
ascending.  When the smallest mean is zero the float quotient is inf or NaN,
and neither compares `≤ signal`; hence the guard. -/
def rowFlagged (signal : ℚ) (r : List ℚ) : Bool :=
  match List.insertionSort (· ≤ ·) r with
  | a :: b :: _ => if a = 0 then false else decide (b / a ≤ signal)
  | _ => false

/-- `Form.choose_answers`: per-row `argmin`, then, when a nonzero signal
threshold is configured, overwrite poor-signal rows with `-1`.  `num.argmin`
raises on an empty row; `sorted_rows[:, 1]` raises when rows have fewer than
two entries. -/
def chooseAnswers (signal : ℚ) (means : List (List ℚ)) : Except OmrError (List ℤ) :=
  if means.any List.isEmpty then Except.error OmrError.indexError
  else
    let choice : List ℤ := means.map (fun r => (argminRow r : ℤ))
    if signal = 0 then Except.ok choice
    else if means.any (fun r => decide (r.length < 2)) then Except.error OmrError.indexError
    else Except.ok (means.zipWith (fun r c => if rowFlagged signal r then -1 else c) choice)

/-! ## Specification-side definitions (from the claims' words, to be compared
with the source-side definitions above) -/

/-- Spec side: the darkest column of a row is the least index whose mean is
at most every mean in the row. -/
def darkestIdx (r : List ℚ) : ℕ :=
  r.findIdx (fun x => decide (∀ y ∈ r, x ≤ y))

/-- Spec side: ambiguity per the claim — ratio = second-smallest / smallest,
ambiguous when the ratio is at most the signal threshold.  The
second-smallest is the minimum after removing one occurrence of the
smallest; an infinite ratio (smallest = 0) never triggers the overwrite. -/
def specAmbiguous (signal : ℚ) (r : List ℚ) : Bool :=
  if rowMinQ r = 0 then false
  else decide (rowMinQ (r.erase (rowMinQ r)) / rowMinQ r ≤ signal)

/-- Spec side: per-row selection as the claim states it. -/
def specChoiceRow (signal : ℚ) (r : List ℚ) : ℤ :=
  if signal ≠ 0 ∧ specAmbiguous signal r then -1 else (darkestIdx r : ℤ)

def specChoices (signal : ℚ) (means : List (List ℚ)) : List ℤ :=
  means.map (specChoiceRow signal)

/-- Spec side (claim C3): the full integer disc of radius `radius`. -/
def discOffsets (radius : ℕ) : List (ℤ × ℤ) :=
  ((List.range (2 * radius + 1)).map (fun k => (k : ℤ) - radius)).flatMap (fun iv =>
    ((List.range (2 * radius + 1)).map (fun k => (k : ℤ) - radius)).filterMap (fun jv =>
      if iv ^ 2 + jv ^ 2 ≤ (radius : ℤ) ^ 2 then some (iv, jv) else none))

/-! ## DiagnosticsRenderer -/

/-- Python slice assignment `img[x0:x1, y0:y1] = v`. -/
def setRegion (img : Img) (x0 x1 y0 y1 : ℤ) (v : ℚ) : Img :=
  let r0 := sliceNorm img.h x0
  let r1 := sliceNorm img.h x1
  let c0 := sliceNorm img.w y0
  let c1 := sliceNorm img.w y1
  ⟨img.h, img.w, fun i j =>
    if r0 ≤ i ∧ i < r1 ∧ c0 ≤ j ∧ j < c1 then v else img.pix i j⟩

/-- The `plus` cross-hair helper of `overlay_ref_fit`. -/
def plusMark (img : Img) (x y : ℤ) (v : ℚ) (r : ℤ) : Img :=
  setRegion (setRegion img (x - 1) x (y - r) (y + r) v) (x - r) (x + r) (y - 1) y v

def overlay_ref_fit (f : Form) (img : Img) (mean : ℤ × ℤ) (fit : List (ℤ × ℤ)) : Img :=
  if f.refzone.length ≠ 4 then img
  else
    let off : ℤ := 25
    let centers : List (ℤ × ℤ) :=
      [(f.ref_rc.1 - off, f.ref_rc.2 - off), (f.ref_rc.1 - off, f.ref_rc.2 + off),
       (f.ref_rc.1 + off, f.ref_rc.2 - off), (f.ref_rc.1 + off, f.ref_rc.2 + off)]
    let img := plusMark img f.ref_rc.1 f.ref_rc.2 150 15
    let img := plusMark img (f.ref_rc.1 + mean.1) (f.ref_rc.2 + mean.2) 0 10
    (f.refzone.zip (fit.zip centers)).foldl (fun im zc =>
      match zc with
      | ((x0, x1, y0, y1), ((xo, yo), (cx, cy))) =>
        let im := plusMark im cx cy 120 15
        let im := plusMark im (cx + xo) (cy + yo) 0 10
        let im := plusMark im x0 y0 150 10
        let im := plusMark im x1 y1 150 10
        let im := plusMark im (x0 + xo) (y0 + yo) 0 10
        plusMark im (x1 + xo) (y1 + yo) 0 10) img

/-- `itertools.product(range(m), range(n))` in row-major order. -/
def cellIndices (size : ℕ × ℕ) : List (ℕ × ℕ) :=
  (List.range size.1).flatMap (fun i => (List.range size.2).map (fun j => (i, j)))

def overlay_bubble_means (f : Form) (img : Img) (means : List (List ℚ)) : Img :=
  (cellIndices f.size).foldl (fun im ij =>
    match (f.coords.getD ij.1 []).getD ij.2 (0, 0, 0, 0) with
    | (i0, i1, j0, j1) => setRegion im i0 i1 j0 j1 ((means.getD ij.1 []).getD ij.2 0)) img

/-- `img[x0:x1, y0:y1]` as a cropped copy. -/
def cropSlice (img : Img) (x0 x1 y0 y1 : ℤ) : Img :=
  let r0 := sliceNorm img.h x0
  let r1 := sliceNorm img.h x1
  let c0 := sliceNorm img.w y0
  let c1 := sliceNorm img.w y1
  ⟨r1 - r0, c1 - c0, fun i j => img.pix (r0 + i) (c0 + j)⟩

/-- `Form.write_info_image`: crop and rotate the info region, stack the score
region when configured (`num.hstack` raises on a row-count mismatch), then
save.  The image-codec save is an external collaborator whose outcome is the
`save` parameter. -/
def write_info_image (f : Form) (img : Img) (save : Except OmrError Unit) :
    Except OmrError Unit :=
  match f.info with
  | none => Except.ok ()
  | some (x0, x1, y0, y1) =>
    let nameimg := rot90 (cropSlice img x0 x1 y0 y1)
    match f.score with
    | none => save
    | some (a, b, u, v) =>
      let score := rot90 (cropSlice img a b u v)
      let top := cropSlice nameimg 30 75 0 nameimg.w
      if top.h = score.h then save else Except.error OmrError.shapeMismatch

/-! ## The pipeline (`process_exam`) -/

/-- `process_exam` from the point after the external image codec has decoded
the page: trim margins, check size, optionally fit and apply the reference
offset, extract bubble means, choose answers, render diagnostics, write the
info and validation images (the two codec writes are external collaborators
whose outcomes are the `saveInfo` / `saveVal` parameters), and return the
answer choices.  `Form.__init__` ends with `calc_coords`, mirrored here. -/
def process_exam (f0 : Form) (img0 : Img) (fuel : ℕ)
    (saveInfo saveVal : Except OmrError Unit) : Except OmrError (List ℤ) := do
  let f := f0.calc_coords
  let img ← trim_margins fuel f.trim_std img0
  let _ ← check_size f img
  let st ←
    (if f.refzone.isEmpty then Except.ok (f, img)
     else do
       let mf ← fit_reference f img
       let img := overlay_ref_fit f img mf.1 mf.2
       Except.ok (f.set_offset mf.1.1 mf.1.2, img))
  let f := st.1
  let img := st.2
  let means ← get_bubble_means f img
  let choice ← chooseAnswers f.signal means
  let img := overlay_bubble_means f img means
  let _ ← write_info_image f img saveInfo
  let _ ← saveVal
  Except.ok choice

/-! ## Helper lemmas -/

theorem except_bind_ok {ε α β : Type} (x : Except ε α) (g : α → Except ε β) (b : β)
    (h : (x >>= g) = Except.ok b) : ∃ a, x = Except.ok a ∧ g a = Except.ok b := by
  cases x with
  | ok a => exact ⟨a, rfl, h⟩
  | error e => simp [Bind.bind, Except.bind] at h

theorem mapExcept_ok_mem {ε α β : Type} (g : α → Except ε β) :
    ∀ (l : List α) (out : List β), mapExcept g l = Except.ok out →
      ∀ b ∈ out, ∃ a ∈ l, g a = Except.ok b := by
  intro l
  induction l with
  | nil =>
    intro out h b hb
    simp only [mapExcept] at h
    cases h
    simp at hb
  | cons a t ih =>
    intro out h b hb
    simp only [mapExcept] at h
    obtain ⟨b0, hb0, h⟩ := except_bind_ok _ _ _ h
    obtain ⟨bs, hbs, h⟩ := except_bind_ok _ _ _ h
    cases h
    rcases List.mem_cons.mp hb with hEq | hMem
    · exact ⟨a, List.mem_cons_self a t, hEq ▸ hb0⟩
    · obtain ⟨a2, ha2, hg⟩ := ih bs hbs b hMem
      exact ⟨a2, List.mem_cons_of_mem a ha2, hg⟩

theorem foldl_min_spec (t : List ℚ) : ∀ a : ℚ,
    t.foldl min a ≤ a ∧ (∀ x ∈ t, t.foldl min a ≤ x) ∧ (t.foldl min a = a ∨ t.foldl min a ∈ t) := by
  induction t with
  | nil =>
    intro a
    refine ⟨le_refl a, ?_, Or.inl rfl⟩
    intro x hx
    simp at hx
  | cons b t ih =>
    intro a
    obtain ⟨h1, h2, h3⟩ := ih (min a b)
    simp only [List.foldl_cons]
    refine ⟨le_trans h1 (min_le_left a b), ?_, ?_⟩
    · intro x hx
      rcases List.mem_cons.mp hx with hEq | hMem
      · rw [hEq]
        exact le_trans h1 (min_le_right a b)
      · exact h2 x hMem
    · rcases h3 with hEq | hMem
      · rcases min_choice a b with hc | hc
        · exact Or.inl (by rw [hEq, hc])
        · refine Or.inr ?_
          rw [hEq, hc]
          exact List.mem_cons_self b t
      · exact Or.inr (List.mem_cons_of_mem b hMem)

theorem rowMin_spec (r : List ℚ) (h : r ≠ []) :
    rowMinQ r ∈ r ∧ ∀ x ∈ r, rowMinQ r ≤ x := by
  cases r with
  | nil => exact absurd rfl h
  | cons a t =>
    obtain ⟨h1, h2, h3⟩ := foldl_min_spec t a
    simp only [rowMinQ]
    constructor
    · rcases h3 with hEq | hMem
      · rw [hEq]
        exact List.mem_cons_self a t
      · exact List.mem_cons_of_mem a hMem
    · intro x hx
      rcases List.mem_cons.mp hx with hEq | hMem
      · rw [hEq]
        exact h1
      · exact h2 x hMem

theorem findIdx_congr {α : Type} {p q : α → Bool} :
    ∀ (l : List α), (∀ x ∈ l, p x = q x) → l.findIdx p = l.findIdx q := by
  intro l
  induction l with
  | nil => intro _; rfl
  | cons a t ih =>
    intro h
    rw [List.findIdx_cons, List.findIdx_cons, h a (List.mem_cons_self a t),
      ih (fun x hx => h x (List.mem_cons_of_mem a hx))]

theorem argminRow_eq_darkestIdx (r : List ℚ) (h : r ≠ []) : argminRow r = darkestIdx r := by
  obtain ⟨hmem, hmin⟩ := rowMin_spec r h
  unfold argminRow darkestIdx List.indexOf
  refine findIdx_congr r (fun x hx => ?_)
  by_cases hx0 : x = rowMinQ r
  · have hpred : ∀ y ∈ r, x ≤ y := by
      rw [hx0]
      exact hmin
    rw [decide_eq_true hpred, hx0]
    exact beq_self_eq_true (rowMinQ r)
  · have h1 : (x == rowMinQ r) = false := beq_eq_false_iff_ne.mpr hx0
    have h2 : ¬ ∀ y ∈ r, x ≤ y := fun hall => hx0 (le_antisymm (hall _ hmem) (hmin x hx))
    rw [h1, decide_eq_false h2]

theorem sort_two_smallest (r : List ℚ) (h2 : 2 ≤ r.length) :
    ∃ a b rest, List.insertionSort (· ≤ ·) r = a :: b :: rest ∧
      a = rowMinQ r ∧ b = rowMinQ (r.erase a) := by
  have hperm := List.perm_insertionSort (· ≤ ·) r
  have hsorted := List.sorted_insertionSort (· ≤ ·) r
  have hlen : (List.insertionSort (· ≤ ·) r).length = r.length := hperm.length_eq
  obtain ⟨a, b, rest, hs⟩ : ∃ a b rest, List.insertionSort (· ≤ ·) r = a :: b :: rest := by
    match hso : List.insertionSort (· ≤ ·) r with
    | [] =>
      rw [hso] at hlen
      simp at hlen
      omega
    | [x] =>
      rw [hso] at hlen
      simp at hlen
      omega
    | a :: b :: rest => exact ⟨a, b, rest, rfl⟩
  rw [hs] at hperm hsorted
  rw [List.sorted_cons] at hsorted
  obtain ⟨ha_le, hsorted2⟩ := hsorted
  rw [List.sorted_cons] at hsorted2
  obtain ⟨hb_le, _⟩ := hsorted2
  have hrne : r ≠ [] := by
    intro h0
    rw [h0] at h2
    simp at h2
  obtain ⟨hmmem, hmmin⟩ := rowMin_spec r hrne
  have haR : a ∈ r := hperm.mem_iff.mp (List.mem_cons_self a (b :: rest))
  have ham : a = rowMinQ r := by
    refine le_antisymm ?_ (hmmin a haR)
    have hmem2 : rowMinQ r ∈ a :: b :: rest := hperm.mem_iff.mpr hmmem
    rcases List.mem_cons.mp hmem2 with hEq | hMem
    · rw [hEq]
    · exact ha_le _ hMem
  have hpe : (b :: rest).Perm (r.erase a) := by
    have he := List.Perm.erase a hperm
    rwa [List.erase_cons_head] at he
  have hene : r.erase a ≠ [] := by
    have hle : (r.erase a).length = r.length - 1 := List.length_erase_of_mem haR
    intro h0
    rw [h0] at hle
    simp at hle
    omega
  obtain ⟨hm2mem, hm2min⟩ := rowMin_spec (r.erase a) hene
  have hbR : b ∈ r.erase a := hpe.mem_iff.mp (List.mem_cons_self b rest)
  have hbm : b = rowMinQ (r.erase a) := by
    refine le_antisymm ?_ (hm2min b hbR)
    have hmem3 : rowMinQ (r.erase a) ∈ b :: rest := hpe.mem_iff.mpr hm2mem
    rcases List.mem_cons.mp hmem3 with hEq | hMem
    · rw [hEq]
    · exact hb_le _ hMem
  exact ⟨a, b, rest, hs, ham, hbm⟩

theorem rowFlagged_eq_specAmbiguous (signal : ℚ) (r : List ℚ) (h2 : 2 ≤ r.length) :
    rowFlagged signal r = specAmbiguous signal r := by
  obtain ⟨a, b, rest, hs, ham, hbm⟩ := sort_two_smallest r h2
  have hL : rowFlagged signal r = if a = 0 then false else decide (b / a ≤ signal) := by
    unfold rowFlagged
    rw [hs]
  have hR : specAmbiguous signal r =
      if rowMinQ r = 0 then false
      else decide (rowMinQ (r.erase (rowMinQ r)) / rowMinQ r ≤ signal) := rfl
  rw [hL, hR, ← ham, ← hbm]

/-- C1: for every bubble-means matrix (nonempty rows; at least two columns
when a signal threshold is configured), `choose_answers` computes per row the
first column index attaining the minimum mean; with a nonzero signal
threshold it overwrites with `-1` exactly the rows whose ratio of
second-smallest to smallest mean is at most the threshold (an infinite ratio
never triggers), and a zero signal threshold disables ambiguity detection,
returning the pure per-row argmin. -/
theorem choose_answers_spec (signal : ℚ) (means : List (List ℚ))
    (hne : ∀ r ∈ means, r ≠ [])
    (h2 : signal ≠ 0 → ∀ r ∈ means, 2 ≤ r.length) :
    chooseAnswers signal means = Except.ok (specChoices signal means) := by
  have h0 : means.any List.isEmpty = false := by
    rw [List.any_eq_false]
    intro r hr
    simp only [List.isEmpty_iff]
    exact hne r hr
  unfold chooseAnswers
  rw [h0]
  simp only [Bool.false_eq_true, if_false]
  by_cases hsig : signal = 0
  · rw [if_pos hsig]
    unfold specChoices
    congr 1
    refine List.map_congr_left (fun r hr => ?_)
    unfold specChoiceRow
    rw [if_neg (by simp [hsig]), argminRow_eq_darkestIdx r (hne r hr)]
  · rw [if_neg hsig]
    have h2' := h2 hsig
    have h1 : means.any (fun r => decide (r.length < 2)) = false := by
      rw [List.any_eq_false]
      intro r hr
      simpa using h2' r hr
    rw [h1]
    simp only [Bool.false_eq_true, if_false]
    unfold specChoices
    congr 1
    rw [List.zipWith_map_right, List.zipWith_same]
    refine List.map_congr_left (fun r hr => ?_)
    unfold specChoiceRow
    rw [rowFlagged_eq_specAmbiguous signal r (h2' r hr)]
    by_cases hamb : specAmbiguous signal r = true
    · rw [if_pos hamb, if_pos ⟨hsig, hamb⟩]
    · rw [if_neg hamb, if_neg (fun hc => hamb hc.2),
        argminRow_eq_darkestIdx r (hne r hr)]

theorem choose_answers_spec_witness :
    chooseAnswers 2 [[10, 12], [5, 5]] = Except.ok (specChoices 2 [[10, 12], [5, 5]]) :=
  choose_answers_spec 2 [[10, 12], [5, 5]] (by decide) (fun _ => by decide)

theorem nanargminAux_spec :
    ∀ (t : List (Option ℚ)) (idx bi : ℕ) (bv : ℚ),
      (nanargminAux t idx bi bv = bi ∧ nanminAux t bv = bv ∧
        ∀ (j : ℕ) (v : ℚ), t[j]? = some (some v) → bv ≤ v) ∨
      (∃ (j : ℕ) (v : ℚ), t[j]? = some (some v) ∧ nanargminAux t idx bi bv = idx + j ∧
        nanminAux t bv = v ∧ v < bv ∧
        (∀ (k : ℕ) (w : ℚ), t[k]? = some (some w) → v ≤ w) ∧
        (∀ k : ℕ, k < j → ∀ w : ℚ, t[k]? = some (some w) → v < w)) := by
  intro t
  induction t with
  | nil =>
    intro idx bi bv
    left
    refine ⟨rfl, rfl, ?_⟩
    intro j v hj
    simp at hj
  | cons x t ih =>
    intro idx bi bv
    cases x with
    | none =>
      rcases ih (idx + 1) bi bv with ⟨h1, h2, h3⟩ | ⟨j, v, hj, he, hm, hlt, hmin, hfirst⟩
      · left
        refine ⟨h1, h2, ?_⟩
        intro j v hj
        cases j with
        | zero => simp at hj
        | succ j => exact h3 j v (by rwa [List.getElem?_cons_succ] at hj)
      · right
        refine ⟨j + 1, v, by rwa [List.getElem?_cons_succ], ?_, hm, hlt, ?_, ?_⟩
        · show nanargminAux t (idx + 1) bi bv = idx + (j + 1)
          rw [he]
          omega
        · intro k w hk
          cases k with
          | zero => simp at hk
          | succ k => exact hmin k w (by rwa [List.getElem?_cons_succ] at hk)
        · intro k hklt w hk
          cases k with
          | zero => simp at hk
          | succ k => exact hfirst k (by omega) w (by rwa [List.getElem?_cons_succ] at hk)
    | some v0 =>
      by_cases hv : v0 < bv
      · rcases ih (idx + 1) idx v0 with ⟨h1, h2, h3⟩ | ⟨j, w, hj, he, hm, hlt, hmin, hfirst⟩
        · right
          refine ⟨0, v0, by rw [List.getElem?_cons_zero], ?_, ?_, hv, ?_, ?_⟩
          · show (if v0 < bv then nanargminAux t (idx + 1) idx v0
                  else nanargminAux t (idx + 1) bi bv) = idx + 0
            rw [if_pos hv, h1]
            omega
          · show nanminAux t (min bv v0) = v0
            rw [min_eq_right (le_of_lt hv)]
            exact h2
          · intro k w hk
            cases k with
            | zero =>
              simp only [List.getElem?_cons_zero, Option.some.injEq] at hk
              rw [← hk]
            | succ k => exact h3 k w (by rwa [List.getElem?_cons_succ] at hk)
          · intro k hklt w hk
            omega
        · right
          refine ⟨j + 1, w, by rwa [List.getElem?_cons_succ], ?_, ?_,
              lt_trans hlt hv, ?_, ?_⟩
          · show (if v0 < bv then nanargminAux t (idx + 1) idx v0
                  else nanargminAux t (idx + 1) bi bv) = idx + (j + 1)
            rw [if_pos hv, he]
            omega
          · show nanminAux t (min bv v0) = w
            rw [min_eq_right (le_of_lt hv)]
            exact hm
          · intro k u hk
            cases k with
            | zero =>
              simp only [List.getElem?_cons_zero, Option.some.injEq] at hk
              rw [← hk]
              exact le_of_lt hlt
            | succ k => exact hmin k u (by rwa [List.getElem?_cons_succ] at hk)
          · intro k hklt u hk
            cases k with
            | zero =>
              simp only [List.getElem?_cons_zero, Option.some.injEq] at hk
              rw [← hk]
              exact hlt
            | succ k => exact hfirst k (by omega) u (by rwa [List.getElem?_cons_succ] at hk)
      · have hv2 : bv ≤ v0 := not_lt.mp hv
        rcases ih (idx + 1) bi bv with ⟨h1, h2, h3⟩ | ⟨j, w, hj, he, hm, hlt, hmin, hfirst⟩
        · left
          refine ⟨?_, ?_, ?_⟩
          · show (if v0 < bv then nanargminAux t (idx + 1) idx v0
                  else nanargminAux t (idx + 1) bi bv) = bi
            rw [if_neg hv]
            exact h1
          · show nanminAux t (min bv v0) = bv
            rw [min_eq_left hv2]
            exact h2
          · intro j v hj
            cases j with
            | zero =>
              simp only [List.getElem?_cons_zero, Option.some.injEq] at hj
              rw [← hj]
              exact hv2
            | succ j => exact h3 j v (by rwa [List.getElem?_cons_succ] at hj)
        · right
          refine ⟨j + 1, w, by rwa [List.getElem?_cons_succ], ?_, ?_,
              hlt, ?_, ?_⟩
          · show (if v0 < bv then nanargminAux t (idx + 1) idx v0
                  else nanargminAux t (idx + 1) bi bv) = idx + (j + 1)
            rw [if_neg hv, he]
            omega
          · show nanminAux t (min bv v0) = w
            rw [min_eq_left hv2]
            exact hm
          · intro k u hk
            cases k with
            | zero =>
              simp only [List.getElem?_cons_zero, Option.some.injEq] at hk
              rw [← hk]
              exact le_of_lt (lt_of_lt_of_le hlt hv2)
            | succ k => exact hmin k u (by rwa [List.getElem?_cons_succ] at hk)
          · intro k hklt u hk
            cases k with
            | zero =>
              simp only [List.getElem?_cons_zero, Option.some.injEq] at hk
              rw [← hk]
              exact lt_of_lt_of_le hlt hv2
            | succ k => exact hfirst k (by omega) u (by rwa [List.getElem?_cons_succ] at hk)

theorem nanargmin_first_min :
    ∀ (xs : List (Option ℚ)) (k : ℕ), nanargminL xs = some k →
      ∃ v : ℚ, nanminL xs = some v ∧ xs[k]? = some (some v) ∧
        (∀ (j : ℕ) (w : ℚ), xs[j]? = some (some w) → v ≤ w) ∧
        (∀ j : ℕ, j < k → xs[j]? ≠ some (some v)) := by
  intro xs
  induction xs with
  | nil =>
    intro k hk
    simp [nanargminL] at hk
  | cons x t ih =>
    intro k hk
    cases x with
    | none =>
      simp only [nanargminL, Option.map_eq_some'] at hk
      obtain ⟨k1, hk1, hk2⟩ := hk
      obtain ⟨v, hv1, hv2, hv3, hv4⟩ := ih k1 hk1
      subst hk2
      refine ⟨v, hv1, by rwa [List.getElem?_cons_succ], ?_, ?_⟩
      · intro j w hj
        cases j with
        | zero => simp at hj
        | succ j => exact hv3 j w (by rwa [List.getElem?_cons_succ] at hj)
      · intro j hj
        cases j with
        | zero => simp
        | succ j =>
          rw [List.getElem?_cons_succ]
          exact hv4 j (by omega)
    | some v0 =>
      simp only [nanargminL, Option.some.injEq] at hk
      rcases nanargminAux_spec t 1 0 v0 with ⟨h1, h2, h3⟩ | ⟨j, w, hj, he, hm, hlt, hmin, hfirst⟩
      · refine ⟨v0, ?_, ?_, ?_, ?_⟩
        · show some (nanminAux t v0) = some v0
          rw [h2]
        · rw [← hk, h1, List.getElem?_cons_zero]
        · intro j u hj
          cases j with
          | zero =>
            simp only [List.getElem?_cons_zero, Option.some.injEq] at hj
            rw [← hj]
          | succ j => exact h3 j u (by rwa [List.getElem?_cons_succ] at hj)
        · intro j hj
          rw [← hk, h1] at hj
          omega
      · refine ⟨w, ?_, ?_, ?_, ?_⟩
        · show some (nanminAux t v0) = some w
          rw [hm]
        · rw [← hk, he]
          rw [show 1 + j = j + 1 from by omega, List.getElem?_cons_succ]
          exact hj
        · intro j u hju
          cases j with
          | zero =>
            simp only [List.getElem?_cons_zero, Option.some.injEq] at hju
            rw [← hju]
            exact le_of_lt hlt
          | succ j => exact hmin j u (by rwa [List.getElem?_cons_succ] at hju)
        · intro j hjk
          rw [← hk, he] at hjk
          cases j with
          | zero =>
            rw [List.getElem?_cons_zero]
            intro hc
            simp only [Option.some.injEq] at hc
            rw [hc] at hlt
            exact lt_irrefl _ hlt
          | succ j =>
            rw [List.getElem?_cons_succ]
            intro hc
            exact lt_irrefl _ (hfirst j (by omega) w hc)

theorem mem_rangeInts (r : ℕ) (z : ℤ) : z ∈ rangeInts r ↔ -(r : ℤ) ≤ z ∧ z < r := by
  unfold rangeInts
  simp only [List.mem_map, List.mem_range]
  constructor
  · rintro ⟨k, hk, rfl⟩
    constructor <;> omega
  · intro ⟨h1, h2⟩
    refine ⟨(z + r).toNat, ?_, ?_⟩ <;> omega

theorem mem_candidateOffsets (radius : ℕ) (p : ℤ × ℤ) :
    p ∈ candidateOffsets radius ↔
      (-(radius : ℤ) ≤ p.1 ∧ p.1 < radius) ∧ (-(radius : ℤ) ≤ p.2 ∧ p.2 < radius) ∧
        p.1 ^ 2 + p.2 ^ 2 ≤ (radius : ℤ) ^ 2 := by
  unfold candidateOffsets
  simp only [List.mem_flatMap, List.mem_filterMap, mem_rangeInts]
  constructor
  · rintro ⟨jv, hjv, iv, hiv, hif⟩
    by_cases hc : iv ^ 2 + jv ^ 2 ≤ (radius : ℤ) ^ 2
    · rw [if_pos hc] at hif
      cases hif
      exact ⟨hiv, hjv, hc⟩
    · rw [if_neg hc] at hif
      cases hif
  · intro ⟨h1, h2, h3⟩
    exact ⟨p.2, h2, p.1, h1, by rw [if_pos h3]⟩

def colRowLt (p q : ℤ × ℤ) : Prop := p.2 < q.2 ∨ (p.2 = q.2 ∧ p.1 < q.1)

theorem rangeInts_pairwise (r : ℕ) : List.Pairwise (· < ·) (rangeInts r) := by
  unfold rangeInts
  rw [List.pairwise_map]
  exact (List.pairwise_lt_range (2 * r)).imp (fun h => by omega)

theorem candidateOffsets_sorted (radius : ℕ) :
    List.Pairwise colRowLt (candidateOffsets radius) := by
  unfold candidateOffsets
  rw [List.pairwise_flatMap]
  constructor
  · intro jv _
    rw [List.pairwise_filterMap]
    refine (rangeInts_pairwise radius).imp ?_
    intro iv iv2 hlt x hx y hy
    by_cases hc : iv ^ 2 + jv ^ 2 ≤ (radius : ℤ) ^ 2
    · rw [if_pos hc] at hx
      by_cases hc2 : iv2 ^ 2 + jv ^ 2 ≤ (radius : ℤ) ^ 2
      · rw [if_pos hc2] at hy
        cases hx
        cases hy
        exact Or.inr ⟨rfl, hlt⟩
      · rw [if_neg hc2] at hy
        cases hy
    · rw [if_neg hc] at hx
      cases hx
  · refine (rangeInts_pairwise radius).imp ?_
    intro jv jv2 hlt x hx y hy
    rw [List.mem_filterMap] at hx hy
    obtain ⟨iv, _, hif⟩ := hx
    obtain ⟨iv2, _, hif2⟩ := hy
    have hx2 : x.2 = jv := by
      by_cases hc : iv ^ 2 + jv ^ 2 ≤ (radius : ℤ) ^ 2
      · rw [if_pos hc] at hif
        cases hif
        rfl
      · rw [if_neg hc] at hif
        cases hif
    have hy2 : y.2 = jv2 := by
      by_cases hc : iv2 ^ 2 + jv2 ^ 2 ≤ (radius : ℤ) ^ 2
      · rw [if_pos hc] at hif2
        cases hif2
        rfl
      · rw [if_neg hc] at hif2
        cases hif2
    exact Or.inl (by rw [hx2, hy2]; exact hlt)

theorem candidate_ne_sentinel (radius : ℕ) (hrad : radius < 9999) (p : ℤ × ℤ)
    (hp : p ∈ candidateOffsets radius) : p.1 ≠ -9999 ∧ p.2 ≠ -9999 := by
  obtain ⟨⟨h1, _⟩, ⟨h2, _⟩, _⟩ := (mem_candidateOffsets radius p).mp hp
  constructor <;> intro hc <;> omega

theorem center_on_box_cases (img : Img) (radius : ℕ) (min_ref : ℚ) (box : ℤ × ℤ × ℤ × ℤ)
    (res : ℤ × ℤ) (h : center_on_box img radius min_ref box = Except.ok res) :
    ∃ m : ℚ, nanminL (fitListOf img radius box) = some m ∧
      ((min_ref < m ∧ res = (-9999, -9999)) ∨ (m ≤ min_ref ∧ res ∈ candidateOffsets radius)) := by
  cases hm : nanminL (fitListOf img radius box) with
  | none =>
    simp only [center_on_box, hm] at h
    exact Except.noConfusion h
  | some m =>
    by_cases hle : m ≤ min_ref
    · cases hk : nanargminL (fitListOf img radius box) with
      | none =>
        simp only [center_on_box, hm, hk, if_pos hle] at h
        exact Except.noConfusion h
      | some k =>
        simp only [center_on_box, hm, hk, if_pos hle, Except.ok.injEq] at h
        obtain ⟨v, hv1, hv2, _, _⟩ := nanargmin_first_min _ k hk
        have hklen : k < (candidateOffsets radius).length := by
          rcases List.getElem?_eq_some.mp hv2 with ⟨hlt, _⟩
          have hlm : (fitListOf img radius box).length = (candidateOffsets radius).length :=
            List.length_map _ _
          omega
        refine ⟨m, rfl, Or.inr ⟨hle, ?_⟩⟩
        rw [← h, List.getD_eq_getElem?_getD, List.getElem?_eq_getElem hklen]
        exact List.getElem_mem hklen
    · simp only [center_on_box, hm, if_neg hle, Except.ok.injEq] at h
      exact ⟨m, rfl, Or.inl ⟨not_le.mp hle, h.symm⟩⟩

/-- C3 (divergence witness): for radius 1 the code enumerates only the
candidates [(0,-1), (-1,0), (0,0)]; the offset (1,0) lies in the Euclidean
disc of radius 1 but is never tried, because `arange(-radius, radius)`
excludes `+radius`. -/
theorem candidate_disc_mismatch :
    candidateOffsets 1 = [(0, -1), (-1, 0), (0, 0)] ∧
      ((1, 0) : ℤ × ℤ) ∈ discOffsets 1 ∧ ((1 : ℤ) ^ 2 + (0 : ℤ) ^ 2 ≤ (1 : ℤ) ^ 2) ∧
      ((1, 0) : ℤ × ℤ) ∉ candidateOffsets 1 := by decide

/-- C4 (amended): the candidate enumeration of the reference-box search is
strictly ordered column-offset-first (ascending second coordinate, then
ascending first coordinate) — not by ascending Euclidean distance — and
`nanargmin` returns the first index attaining the NaN-ignoring minimum, so
ties are broken by the first-encountered offset in that fixed order and the
result is deterministic. -/
theorem center_tiebreak_amended (radius : ℕ) (xs : List (Option ℚ)) (k : ℕ)
    (hk : nanargminL xs = some k) :
    List.Pairwise colRowLt (candidateOffsets radius) ∧
      xs[k]? = some (nanminL xs) ∧
      (∀ (j : ℕ) (w : ℚ), xs[j]? = some (some w) → ∀ v : ℚ, nanminL xs = some v → v ≤ w) ∧
      (∀ j : ℕ, j < k → xs[j]? ≠ some (nanminL xs)) := by
  obtain ⟨v, hv1, hv2, hv3, hv4⟩ := nanargmin_first_min xs k hk
  refine ⟨candidateOffsets_sorted radius, ?_, ?_, ?_⟩
  · rw [hv1]
    exact hv2
  · intro j w hj v2 hv2eq
    rw [hv1, Option.some.injEq] at hv2eq
    rw [← hv2eq]
    exact hv3 j w hj
  · intro j hjk
    rw [hv1]
    exact hv4 j hjk

theorem center_tiebreak_amended_witness :
    List.Pairwise colRowLt (candidateOffsets 2) ∧
      ([none, some 3, some 1, some 1] : List (Option ℚ))[2]? =
        some (nanminL [none, some 3, some 1, some 1]) :=
  ⟨(center_tiebreak_amended 2 [none, some 3, some 1, some 1] 2 (by decide)).1,
   (center_tiebreak_amended 2 [none, some 3, some 1, some 1] 2 (by decide)).2.1⟩

theorem boxMean_of_const (img : Img) (v : ℚ) (hpix : ∀ i j, img.pix i j = v)
    (x0 x1 y0 y1 : ℤ)
    (h1 : (sliceIdx img.h x0 x1).isEmpty = false)
    (h2 : (sliceIdx img.w y0 y1).isEmpty = false) :
    boxMean img x0 x1 y0 y1 = some v := by
  simp only [boxMean]
  rw [h1, h2]
  simp only [Bool.false_or, Bool.false_eq_true, if_false, Option.some.injEq]
  have hcs : ∀ i, (sliceIdx img.w y0 y1).map (img.pix i) =
      List.replicate (sliceIdx img.w y0 y1).length v := by
    intro i
    rw [List.eq_replicate_iff]
    refine ⟨by rw [List.length_map], ?_⟩
    intro b hb
    rw [List.mem_map] at hb
    obtain ⟨j, _, hj⟩ := hb
    rw [← hj, hpix]
  have hrs : (sliceIdx img.h x0 x1).map
      (fun i => ((sliceIdx img.w y0 y1).map (img.pix i)).sum) =
      List.replicate (sliceIdx img.h x0 x1).length ((sliceIdx img.w y0 y1).length • v) := by
    rw [List.eq_replicate_iff]
    refine ⟨by rw [List.length_map], ?_⟩
    intro b hb
    rw [List.mem_map] at hb
    obtain ⟨i, _, hi⟩ := hb
    rw [← hi, hcs i, List.sum_replicate]
  have hl1 : (sliceIdx img.h x0 x1).length ≠ 0 := by
    intro hc
    rw [List.length_eq_zero] at hc
    rw [hc] at h1
    simp at h1
  have hl2 : (sliceIdx img.w y0 y1).length ≠ 0 := by
    intro hc
    rw [List.length_eq_zero] at hc
    rw [hc] at h2
    simp at h2
  have hab : ((sliceIdx img.h x0 x1).length : ℚ) * (sliceIdx img.w y0 y1).length ≠ 0 :=
    mul_ne_zero (Nat.cast_ne_zero.mpr hl1) (Nat.cast_ne_zero.mpr hl2)
  rw [hrs, List.sum_replicate, smul_smul, nsmul_eq_mul, div_eq_iff hab]
  push_cast
  ring

/-! ## Concrete fixtures -/

def imgZero3 : Img := ⟨3, 3, fun _ _ => 0⟩

theorem fitListOf_imgZero3 : fitListOf imgZero3 1 (1, 2, 1, 2) = [some 0, some 0, some 0] := by
  have hc : candidateOffsets 1 = [(0, -1), (-1, 0), (0, 0)] := by decide
  have hb : ∀ x0 x1 y0 y1 : ℤ, (sliceIdx imgZero3.h x0 x1).isEmpty = false →
      (sliceIdx imgZero3.w y0 y1).isEmpty = false → boxMean imgZero3 x0 x1 y0 y1 = some 0 :=
    fun x0 x1 y0 y1 ha hb => boxMean_of_const imgZero3 0 (fun _ _ => rfl) x0 x1 y0 y1 ha hb
  rw [fitListOf, hc]
  simp only [List.map]
  rw [hb _ _ _ _ (by decide) (by decide), hb _ _ _ _ (by decide) (by decide),
    hb _ _ _ _ (by decide) (by decide)]

/-- C4 (counterexample): on a uniformly black image every candidate offset of
the radius-1 search ties with mean 0, and the code returns the
first-enumerated candidate (0, -1) — not (0, 0), the unique offset of
smallest Euclidean distance, which the claimed distance-then-row-then-column
order would return first. -/
theorem center_tiebreak_counterexample :
    center_on_box imgZero3 1 255 (1, 2, 1, 2) = Except.ok (0, -1) ∧
      ((0, -1) : ℤ × ℤ) ≠ (0, 0) ∧
      (∀ q ∈ fitListOf imgZero3 1 (1, 2, 1, 2), q = some 0) := by
  refine ⟨?_, by decide, ?_⟩
  · have hmin : nanminL [some 0, some 0, some 0] = some 0 := by decide
    have harg : nanargminL [some 0, some 0, some 0] = some 0 := by decide
    simp only [center_on_box, fitListOf_imgZero3, hmin, harg,
      if_pos (by norm_num : (0 : ℚ) ≤ 255)]
    decide
  · rw [fitListOf_imgZero3]
    intro q hq
    simp only [List.mem_cons, List.not_mem_nil, or_false] at hq
    rcases hq with h | h | h <;> exact h

/-- C6: the margin-trimming loop has no empty-image guard: on a 1×1 image of
a single constant pixel with trim threshold 1, trimming shrinks the image to
zero rows and the next pass indexes row 0 of an empty array, raising
IndexError — not an EmptyImageError. -/
theorem trim_margins_crash :
    trim_margins 8 1 ⟨1, 1, fun _ _ => 0⟩ = Except.error OmrError.indexError := by
  norm_num [trim_margins, trimLoop, trimPass, rotStep, rot90, stdLt, rowVar, row0, trimTop,
    Img.shape, List.range, List.range.loop, bind, Except.bind]

def cfgAllMiss : Form :=
  { size := (1, 1)
    offset := (0, 0)
    pos := (0, 0)
    bub := (1, 1)
    space := (1, 1)
    info := none
    score := none
    refzone := [(1, 2, 1, 2)]
    expected_dpi := (0, 0)
    expected_size := (3, 3)
    size_tolerance := (0, 0)
    ref_rc := (0, 0)
    contrast := 0
    trim_std := 0
    radius := 1
    min_ref := 100
    signal := 0
    coords := [] }

theorem bwZero3_pix : ∀ i j, (binarize cfgAllMiss.contrast imgZero3).pix i j = 255 := by
  intro i j
  norm_num [binarize, imgZero3, cfgAllMiss]

theorem fitListOf_bwZero3 :
    fitListOf (binarize cfgAllMiss.contrast imgZero3) 1 (1, 2, 1, 2) =
      [some 255, some 255, some 255] := by
  have hc : candidateOffsets 1 = [(0, -1), (-1, 0), (0, 0)] := by decide
  have hb : ∀ x0 x1 y0 y1 : ℤ,
      (sliceIdx (binarize cfgAllMiss.contrast imgZero3).h x0 x1).isEmpty = false →
      (sliceIdx (binarize cfgAllMiss.contrast imgZero3).w y0 y1).isEmpty = false →
      boxMean (binarize cfgAllMiss.contrast imgZero3) x0 x1 y0 y1 = some 255 :=
    fun x0 x1 y0 y1 ha hb => boxMean_of_const _ 255 bwZero3_pix x0 x1 y0 y1 ha hb
  rw [fitListOf, hc]
  simp only [List.map]
  rw [hb _ _ _ _ (by decide) (by decide), hb _ _ _ _ (by decide) (by decide),
    hb _ _ _ _ (by decide) (by decide)]

theorem center_bwZero3_miss :
    center_on_box (binarize cfgAllMiss.contrast imgZero3) cfgAllMiss.radius cfgAllMiss.min_ref
      (1, 2, 1, 2) = Except.ok (-9999, -9999) := by
  have hmin : nanminL [some 255, some 255, some 255] = some 255 := by decide
  show center_on_box (binarize cfgAllMiss.contrast imgZero3) 1 (100 : ℚ) (1, 2, 1, 2) =
    Except.ok (-9999, -9999)
  simp only [center_on_box, fitListOf_bwZero3, hmin, if_neg (by norm_num : ¬ (255 : ℚ) ≤ 100)]

theorem mapExcept_cfgAllMiss :
    mapExcept (fun box => center_on_box (binarize cfgAllMiss.contrast imgZero3)
      cfgAllMiss.radius cfgAllMiss.min_ref box) cfgAllMiss.refzone =
      Except.ok [(-9999, -9999)] := by
  show mapExcept _ [(1, 2, 1, 2)] = _
  simp only [mapExcept, center_bwZero3_miss, bind, Except.bind]

def imgMix : Img := ⟨5, 5, fun i j => if i ≤ 2 ∧ j ≤ 2 then 0 else 255⟩

def cfgMix : Form :=
  { size := (1, 1)
    offset := (0, 0)
    pos := (0, 0)
    bub := (1, 1)
    space := (1, 1)
    info := none
    score := none
    refzone := [(1, 2, 1, 2), (3, 4, 3, 4)]
    expected_dpi := (0, 0)
    expected_size := (5, 5)
    size_tolerance := (0, 0)
    ref_rc := (0, 0)
    contrast := 128
    trim_std := 0
    radius := 1
    min_ref := 100
    signal := 0
    coords := [] }

theorem boxMean_single (img : Img) (x0 x1 y0 y1 : ℤ) (i j : ℕ)
    (hx : sliceIdx img.h x0 x1 = [i]) (hy : sliceIdx img.w y0 y1 = [j]) :
    boxMean img x0 x1 y0 y1 = some (img.pix i j) := by
  simp only [boxMean, hx, hy]
  norm_num

theorem fitListOf_mixA :
    fitListOf (binarize cfgMix.contrast imgMix) 1 (1, 2, 1, 2) = [some 0, some 0, some 0] := by
  have hc : candidateOffsets 1 = [(0, -1), (-1, 0), (0, 0)] := by decide
  rw [fitListOf, hc]
  simp only [List.map]
  rw [boxMean_single _ _ _ _ _ 1 0 (by decide) (by decide),
    boxMean_single _ _ _ _ _ 0 1 (by decide) (by decide),
    boxMean_single _ _ _ _ _ 1 1 (by decide) (by decide)]
  norm_num [binarize, imgMix, cfgMix]

theorem fitListOf_mixB :
    fitListOf (binarize cfgMix.contrast imgMix) 1 (3, 4, 3, 4) =
      [some 255, some 255, some 255] := by
  have hc : candidateOffsets 1 = [(0, -1), (-1, 0), (0, 0)] := by decide
  rw [fitListOf, hc]
  simp only [List.map]
  rw [boxMean_single _ _ _ _ _ 3 2 (by decide) (by decide),
    boxMean_single _ _ _ _ _ 2 3 (by decide) (by decide),
    boxMean_single _ _ _ _ _ 3 3 (by decide) (by decide)]
  norm_num [binarize, imgMix, cfgMix]

theorem center_mixA :
    center_on_box (binarize cfgMix.contrast imgMix) cfgMix.radius cfgMix.min_ref (1, 2, 1, 2) =
      Except.ok (0, -1) := by
  have hmin : nanminL [some 0, some 0, some 0] = some 0 := by decide
  have harg : nanargminL [some 0, some 0, some 0] = some 0 := by decide
  show center_on_box (binarize cfgMix.contrast imgMix) 1 (100 : ℚ) (1, 2, 1, 2) =
    Except.ok (0, -1)
  simp only [center_on_box, fitListOf_mixA, hmin, harg, if_pos (by norm_num : (0 : ℚ) ≤ 100)]
  decide

theorem center_mixB :
    center_on_box (binarize cfgMix.contrast imgMix) cfgMix.radius cfgMix.min_ref (3, 4, 3, 4) =
      Except.ok (-9999, -9999) := by
  have hmin : nanminL [some 255, some 255, some 255] = some 255 := by decide
  show center_on_box (binarize cfgMix.contrast imgMix) 1 (100 : ℚ) (3, 4, 3, 4) =
    Except.ok (-9999, -9999)
  simp only [center_on_box, fitListOf_mixB, hmin, if_neg (by norm_num : ¬ (255 : ℚ) ≤ 100)]

theorem mapExcept_cfgMix :
    mapExcept (fun box => center_on_box (binarize cfgMix.contrast imgMix)
      cfgMix.radius cfgMix.min_ref box) cfgMix.refzone =
      Except.ok [(0, -1), (-9999, -9999)] := by
  show mapExcept _ [(1, 2, 1, 2), (3, 4, 3, 4)] = _
  simp only [mapExcept, center_mixA, center_mixB, bind, Except.bind]

/-- C5 (the code at the failing inputs): because `fit == -9999` is a Python
list-vs-int comparison evaluating to False, `fit_reference` masks nothing.
When every reference box misses it returns the sentinel average
`(-9999, -9999)` instead of raising the reference-fit error, and when one box
matches at `(0, -1)` while another misses, the sentinel is averaged in and
the returned global offset is the nonsense `(-4999, -5000)` instead of
`(0, -1)`. -/
theorem fit_reference_unmasked :
    fit_reference cfgAllMiss imgZero3 = Except.ok ((-9999, -9999), [(-9999, -9999)]) ∧
    fit_reference cfgMix imgMix = Except.ok ((-4999, -5000), [(0, -1), (-9999, -9999)]) := by
  constructor
  · simp only [fit_reference, mapExcept_cfgAllMiss]
    norm_num [listMeanQ, truncInt]
  · simp only [fit_reference, mapExcept_cfgMix]
    norm_num [listMeanQ, truncInt]

/-- C2 (counterexample): for a row with means 10 and 12 the code's ratio is
12/10 = 1.2, so with signal threshold 0.9 the row's choice stays the darkest
index 0 — it is not overwritten to -1 as the claim states. -/
theorem signal_ratio_counterexample :
    chooseAnswers (9/10) [[10, 12]] = Except.ok [0] ∧
      (Except.ok [(0 : ℤ)] : Except OmrError (List ℤ)) ≠ Except.ok [-1] := by
  constructor
  · norm_num [chooseAnswers, argminRow, rowMinQ, rowFlagged, List.insertionSort,
      List.orderedInsert]
  · decide

/-- C2 (amended): with two darkest means 10 and 12 the computed ratio is
12/10 = 1.2; with signal threshold 0.9 the darkest-index choice (column 0) is
kept, likewise with 0.5, and the overwrite to -1 happens only for thresholds
at least 1.2 (here: 1.2). -/
theorem signal_ratio_amended :
    chooseAnswers (9/10) [[10, 12]] = Except.ok [0] ∧
    chooseAnswers (1/2) [[10, 12]] = Except.ok [0] ∧
    chooseAnswers (6/5) [[10, 12]] = Except.ok [-1] := by
  refine ⟨?_, ?_, ?_⟩ <;>
    norm_num [chooseAnswers, argminRow, rowMinQ, rowFlagged, List.insertionSort,
      List.orderedInsert]

theorem pctLeB_of_ne (d e t : ℚ) (he : e ≠ 0) : pctLeB d e t = decide (d / e ≤ t) := by
  unfold pctLeB
  rw [if_neg he]

/-- C7: `check_size` computes the relative deviation of each dimension from
the expected size and raises the size-tolerance error if and only if some
axis exceeds its tolerance fraction; a deviation of exactly the tolerance
fraction passes, and one pixel beyond the tolerance fraction fails.  The
image itself is only read, never modified. -/
theorem check_size_spec (f : Form) (img : Img)
    (h1 : 0 < f.expected_size.1) (h2 : 0 < f.expected_size.2) :
    (check_size f img = Except.ok () ↔
      (|(img.h : ℚ) - f.expected_size.1| / f.expected_size.1 ≤ f.size_tolerance.1 ∧
       |(img.w : ℚ) - f.expected_size.2| / f.expected_size.2 ≤ f.size_tolerance.2)) ∧
    (check_size f img = Except.error OmrError.sizeTolerance ↔
      ¬(|(img.h : ℚ) - f.expected_size.1| / f.expected_size.1 ≤ f.size_tolerance.1 ∧
        |(img.w : ℚ) - f.expected_size.2| / f.expected_size.2 ≤ f.size_tolerance.2)) ∧
    (|(img.h : ℚ) - f.expected_size.1| = f.size_tolerance.1 * f.expected_size.1 →
     |(img.w : ℚ) - f.expected_size.2| = f.size_tolerance.2 * f.expected_size.2 →
     check_size f img = Except.ok ()) ∧
    (f.size_tolerance.1 * f.expected_size.1 + 1 ≤ |(img.h : ℚ) - f.expected_size.1| →
     check_size f img = Except.error OmrError.sizeTolerance) := by
  have he1 : ((f.expected_size.1 : ℚ)) ≠ 0 := Nat.cast_ne_zero.mpr (Nat.pos_iff_ne_zero.mp h1)
  have he2 : ((f.expected_size.2 : ℚ)) ≠ 0 := Nat.cast_ne_zero.mpr (Nat.pos_iff_ne_zero.mp h2)
  have he1p : (0 : ℚ) < f.expected_size.1 := by
    exact_mod_cast h1
  have hcond : (pctLeB |(img.h : ℚ) - f.expected_size.1| f.expected_size.1 f.size_tolerance.1 &&
      pctLeB |(img.w : ℚ) - f.expected_size.2| f.expected_size.2 f.size_tolerance.2) = true ↔
      (|(img.h : ℚ) - f.expected_size.1| / f.expected_size.1 ≤ f.size_tolerance.1 ∧
       |(img.w : ℚ) - f.expected_size.2| / f.expected_size.2 ≤ f.size_tolerance.2) := by
    rw [Bool.and_eq_true, pctLeB_of_ne _ _ _ he1, pctLeB_of_ne _ _ _ he2,
      decide_eq_true_eq, decide_eq_true_eq]
  have hok : check_size f img = Except.ok () ↔
      (|(img.h : ℚ) - f.expected_size.1| / f.expected_size.1 ≤ f.size_tolerance.1 ∧
       |(img.w : ℚ) - f.expected_size.2| / f.expected_size.2 ≤ f.size_tolerance.2) := by
    unfold check_size
    by_cases hb : (pctLeB |(img.h : ℚ) - f.expected_size.1| f.expected_size.1
        f.size_tolerance.1 &&
        pctLeB |(img.w : ℚ) - f.expected_size.2| f.expected_size.2 f.size_tolerance.2) = true
    · rw [if_pos hb]
      exact ⟨fun _ => hcond.mp hb, fun _ => rfl⟩
    · rw [if_neg hb]
      exact ⟨fun hc => Except.noConfusion hc, fun hc => absurd (hcond.mpr hc) hb⟩
  have herr : check_size f img = Except.error OmrError.sizeTolerance ↔
      ¬(|(img.h : ℚ) - f.expected_size.1| / f.expected_size.1 ≤ f.size_tolerance.1 ∧
        |(img.w : ℚ) - f.expected_size.2| / f.expected_size.2 ≤ f.size_tolerance.2) := by
    unfold check_size
    by_cases hb : (pctLeB |(img.h : ℚ) - f.expected_size.1| f.expected_size.1
        f.size_tolerance.1 &&
        pctLeB |(img.w : ℚ) - f.expected_size.2| f.expected_size.2 f.size_tolerance.2) = true
    · rw [if_pos hb]
      exact ⟨fun hc => Except.noConfusion hc, fun hc => absurd (hcond.mp hb) hc⟩
    · rw [if_neg hb]
      exact ⟨fun _ hc => absurd (hcond.mpr hc) hb, fun _ => rfl⟩
  refine ⟨hok, herr, ?_, ?_⟩
  · intro hA hB
    refine hok.mpr ⟨?_, ?_⟩
    · rw [hA, mul_div_assoc, div_self he1, mul_one]
    · rw [hB, mul_div_assoc, div_self he2, mul_one]
  · intro hA
    refine herr.mpr (fun hc => ?_)
    obtain ⟨hc1, _⟩ := hc
    rw [div_le_iff₀ he1p] at hc1
    linarith

def cfgC7 : Form :=
  { size := (1, 1)
    offset := (0, 0)
    pos := (0, 0)
    bub := (1, 1)
    space := (1, 1)
    info := none
    score := none
    refzone := []
    expected_dpi := (0, 0)
    expected_size := (100, 100)
    size_tolerance := (1/20, 1/20)
    ref_rc := (0, 0)
    contrast := 0
    trim_std := 0
    radius := 0
    min_ref := 0
    signal := 0
    coords := [] }

theorem check_size_spec_witness :
    check_size cfgC7 ⟨105, 105, fun _ _ => 0⟩ = Except.ok () ∧
    check_size cfgC7 ⟨106, 100, fun _ _ => 0⟩ = Except.error OmrError.sizeTolerance := by
  constructor
  · exact (check_size_spec cfgC7 ⟨105, 105, fun _ _ => 0⟩ (by norm_num [cfgC7])
      (by norm_num [cfgC7])).2.2.1 (by norm_num [cfgC7]) (by norm_num [cfgC7])
  · exact (check_size_spec cfgC7 ⟨106, 100, fun _ _ => 0⟩ (by norm_num [cfgC7])
      (by norm_num [cfgC7])).2.2.2 (by norm_num [cfgC7])

/-- C8: applying the offset update and then reading the recomputed coordinate
matrix gives exactly the coordinate matrix computed directly from a geometry
whose position is shifted by the same translation. -/
theorem set_offset_coords_linear (f : Form) (r c : ℤ) :
    (f.set_offset r c).coords =
      (Form.calc_coords { f with pos := (f.pos.1 + (r : ℚ), f.pos.2 + (c : ℚ)) }).coords := rfl

/-- C10: `set_offset` changes only the cumulative offset, the position, the
configured info and score rectangles, and the recomputed coordinate matrix;
grid size, bubble size, spacing, reference zones, expected dpi and size, size
tolerance, contrast, trim threshold, search radius, reference-match threshold
and signal threshold are untouched. -/
theorem set_offset_frame (f : Form) (r c : ℤ) :
    (f.set_offset r c).size = f.size ∧ (f.set_offset r c).bub = f.bub ∧
    (f.set_offset r c).space = f.space ∧ (f.set_offset r c).refzone = f.refzone ∧
    (f.set_offset r c).expected_dpi = f.expected_dpi ∧
    (f.set_offset r c).expected_size = f.expected_size ∧
    (f.set_offset r c).size_tolerance = f.size_tolerance ∧
    (f.set_offset r c).ref_rc = f.ref_rc ∧
    (f.set_offset r c).contrast = f.contrast ∧
    (f.set_offset r c).trim_std = f.trim_std ∧
    (f.set_offset r c).radius = f.radius ∧
    (f.set_offset r c).min_ref = f.min_ref ∧
    (f.set_offset r c).signal = f.signal ∧
    (f.set_offset r c).offset = (f.offset.1 + (r : ℚ), f.offset.2 + (c : ℚ)) ∧
    (f.set_offset r c).pos = (f.pos.1 + (r : ℚ), f.pos.2 + (c : ℚ)) ∧
    (f.set_offset r c).coords =
      calcCoordsOf f.size (f.pos.1 + (r : ℚ), f.pos.2 + (c : ℚ)) f.space f.bub :=
  ⟨rfl, rfl, rfl, rfl, rfl, rfl, rfl, rfl, rfl, rfl, rfl, rfl, rfl, rfl, rfl, rfl⟩

theorem bind_error {ε α β : Type} (x : Except ε α) (g : α → Except ε β)
    (h : ∀ a, ∃ e2, g a = Except.error e2) : ∃ e2, (x >>= g) = Except.error e2 := by
  cases x with
  | error e1 => exact ⟨e1, by simp [Bind.bind, Except.bind]⟩
  | ok a =>
    obtain ⟨e2, h2⟩ := h a
    exact ⟨e2, by simpa [Bind.bind, Except.bind] using h2⟩

/-- C9 (amended): failures in the diagnostics and output steps are not
caught: when the validation-image write fails, `process_exam` propagates an
error and returns no answer vector; the bubble-analyzer choice is returned
only when every step, the image writes included, succeeds. -/
theorem process_exam_amended (f : Form) (img : Img) (fuel : ℕ)
    (saveInfo : Except OmrError Unit) (e : OmrError) :
    ∃ e2, process_exam f img fuel saveInfo (Except.error e) = Except.error e2 := by
  simp only [process_exam]
  refine bind_error _ _ (fun a1 => bind_error _ _ (fun a2 => bind_error _ _ (fun a3 =>
    bind_error _ _ (fun a4 => bind_error _ _ (fun a5 => bind_error _ _ (fun a6 =>
      ⟨e, by simp [Bind.bind, Except.bind]⟩))))))

def img22 : Img := ⟨2, 2, fun _ _ => 0⟩

def img22r : Img := rot90 (rot90 (rot90 (rot90 img22)))

def cfgC9 : Form :=
  { size := (1, 1)
    offset := (0, 0)
    pos := (0, 0)
    bub := (1, 1)
    space := (1, 1)
    info := none
    score := none
    refzone := []
    expected_dpi := (0, 0)
    expected_size := (2, 2)
    size_tolerance := (0, 0)
    ref_rc := (0, 0)
    contrast := 0
    trim_std := 0
    radius := 0
    min_ref := 0
    signal := 0
    coords := [[(0, 1, 0, 1)]] }

theorem cfgC9_calc : cfgC9.calc_coords = cfgC9 := by
  have hr1 : List.range 1 = [0] := by decide
  norm_num [Form.calc_coords, calcCoordsOf, cfgC9, truncInt, hr1, Form.mk.injEq]

theorem trim_img22 : trim_margins 4 cfgC9.trim_std img22 = Except.ok img22r := by
  norm_num [trim_margins, trimLoop, trimPass, rotStep, rot90, stdLt, rowVar, row0, trimTop,
    Img.shape, img22, img22r, cfgC9, List.range, List.range.loop, bind, Except.bind]

theorem check_img22r : check_size cfgC9 img22r = Except.ok () := by
  norm_num [check_size, pctLeB, cfgC9, img22r, img22, rot90]

theorem bw22_pix : ∀ i j, (binarize cfgC9.contrast img22r).pix i j = 255 := by
  intro i j
  norm_num [binarize, cfgC9, img22r, img22, rot90]

theorem means_img22r : get_bubble_means cfgC9 img22r = Except.ok [[255]] := by
  have hbm : boxMean (binarize cfgC9.contrast img22r) 0 1 0 1 = some 255 :=
    boxMean_of_const _ 255 bw22_pix 0 1 0 1 (by decide) (by decide)
  have hcrd : cfgC9.coords = [[(0, 1, 0, 1)]] := rfl
  simp only [get_bubble_means, hcrd, mapExcept, hbm, bind, Except.bind]

theorem choice_255 : chooseAnswers cfgC9.signal [[255]] = Except.ok [0] := by decide

theorem refzone_cfgC9 : cfgC9.refzone.isEmpty = true := rfl

theorem info_cfgC9 : ∀ (im : Img) (s : Except OmrError Unit),
    write_info_image cfgC9 im s = Except.ok () := fun _ _ => rfl

/-- C9 (counterexample): on a concrete 2×2 image the pipeline computes the
answer vector [0] and returns it when every step succeeds, but when the
validation-image write fails the failure escalates out of `process_exam` and
the answer vector is not returned. -/
theorem process_exam_escalates :
    process_exam cfgC9 img22 4 (Except.ok ()) (Except.error OmrError.ioError) =
      Except.error OmrError.ioError ∧
    process_exam cfgC9 img22 4 (Except.ok ()) (Except.ok ()) = Except.ok [0] := by
  constructor <;>
    simp only [process_exam, cfgC9_calc, trim_img22, check_img22r, means_img22r, choice_255,
      refzone_cfgC9, info_cfgC9, bind, Except.bind, if_true]
